import Mathlib

/-!
Verification of the LumixEngine fragment: the MTJD job-dependency subsystem
(`src/core/MTJD/group.h` plus the behaviour specified for `BaseEntry`,
`DependencyTable`, `Job` and the scheduler), the byte-buffer `Blob`
(`src/core/blob.h`) and the editor `Settings` (`src/editor/settings.cpp`).

Modelling conventions:
* C++ pointers that are only stored, never dereferenced, are modelled as
  abstract addresses (`Nat`).
* Lua values are modelled by the inductive `LuaValue`; Lua numbers are taken
  to be integers, which is exact for every number this code reads or writes
  (`lua_tointeger` casts, shortcut codes, window geometry) — the two float
  sensitivity fields are likewise stored verbatim, never computed with.
* Entry identities are modelled as `Nat`.
* Fatal consistency errors and caught job failures are modelled with
  `Except String`.
-/

namespace LumixEngine

/-! ## Blob (`src/core/blob.h`) -/

/-- `void*` pointer values: only stored and compared, never dereferenced in
the modelled operations, so an abstract address suffices. -/
abbrev Ptr := Nat

/-- `Lux::Blob` (`src/core/blob.h`): `m_buffer : PODArray<uint8_t>`,
read position `m_pos`, logical size `m_size`, external data pointer `m_data`. -/
structure Blob where
  m_buffer : List UInt8
  m_pos : Int
  m_size : Int
  m_data : Ptr
deriving Repr, DecidableEq

/-- `Blob::create(void* data, int size) { m_data = data; m_size = size; m_pos = 0; }` -/
def Blob.create (b : Blob) (data : Ptr) (size : Int) : Blob :=
  { b with m_data := data, m_size := size, m_pos := 0 }

/-- `int Blob::getBufferSize() const { return m_size; }` -/
def Blob.getBufferSize (b : Blob) : Int :=
  b.m_size

/-- `Blob::clearBuffer() { m_buffer.clear(); m_pos = 0; m_size = 0; }` -/
def Blob.clearBuffer (b : Blob) : Blob :=
  { b with m_buffer := [], m_pos := 0, m_size := 0 }

/-! ## MTJD `BaseEntry` dependency counter -/

/-- Modelled from the spec: `core/MTJD/base_entry.h` is not among the provided
sources (only the `Group` declaration in `src/core/MTJD/group.h` references
it).  Spec §3 / §4.1: an Entry holds `dependency_count : integer ≥ 0`; the
counter is modelled on `Int` so that "never goes negative" is a real
invariant, not a typing artifact. -/
structure BaseEntry where
  dependency_count : Int
deriving Repr, DecidableEq

/-- Modelled from the spec §4.1: `incrementDependency()` atomically increases
`dependency_count` by one. -/
def BaseEntry.incrementDependency (e : BaseEntry) : BaseEntry :=
  { dependency_count := e.dependency_count + 1 }

/-- Modelled from the spec §4.1: `decrementDependency()` atomically decreases
`dependency_count` by one; it fails with a fatal consistency error if the
count was already zero before the decrement. -/
def BaseEntry.decrementDependency (e : BaseEntry) : Except String BaseEntry :=
  if e.dependency_count = 0 then
    .error "MTJD consistency error: dependency counter underflow"
  else
    .ok { dependency_count := e.dependency_count - 1 }

/-- The two counter mutations of the abstract Entry contract. -/
inductive EntryOp where
  | inc
  | dec
deriving Repr, DecidableEq

def BaseEntry.applyOp (e : BaseEntry) : EntryOp → Except String BaseEntry
  | .inc => .ok e.incrementDependency
  | .dec => e.decrementDependency

/-- A reachable state is the result of a sequence of counter operations that
completed without a fatal error. -/
def BaseEntry.runOps (e : BaseEntry) (ops : List EntryOp) : Except String BaseEntry :=
  ops.foldlM BaseEntry.applyOp e

/-! ## Settings custom values (`src/editor/settings.cpp`) -/

/-- Lua values as this code observes them through the C API: type tag plus
payload.  Numbers are modelled as integers (see the file header). -/
inductive LuaValue where
  | nil
  | num (n : Int)
  | boolean (b : Bool)
  | str (s : String)
  | table (fields : List (String × LuaValue)) (arr : List LuaValue)
deriving Repr, BEq

/-- A Lua table keyed by strings, as seen through
`lua_getfield` / `lua_setfield`. -/
abbrev LuaTable := List (String × LuaValue)

/-- `lua_setfield(L, t, name)`: replaces the value at key `name`, adding the
key if absent. -/
def LuaTable.setField (t : LuaTable) (name : String) (v : LuaValue) : LuaTable :=
  match t with
  | [] => [(name, v)]
  | (k, w) :: rest =>
    if k = name then (k, v) :: rest else (k, w) :: LuaTable.setField rest name v

/-- `lua_getfield(L, t, name)`: `nil` when the key is absent. -/
def LuaTable.getField (t : LuaTable) (name : String) : LuaValue :=
  match t with
  | [] => .nil
  | (k, w) :: rest => if k = name then w else LuaTable.getField rest name

/-- `getIntegerField` (settings.cpp:46): returns the field's integer value when
its type is `LUA_TNUMBER`, else the default. -/
def getIntegerField (t : LuaTable) (name : String) (default_value : Int) : Int :=
  match LuaTable.getField t name with
  | .num n => n
  | _ => default_value

/-- `Settings::setValue(const char* name, bool value)` (settings.cpp:196):
stores a boolean into the `custom` table. -/
def Settings.setValueBool (custom : LuaTable) (name : String) (value : Bool) : LuaTable :=
  LuaTable.setField custom name (.boolean value)

/-- `Settings::setValue(const char* name, int value)` (settings.cpp:205):
stores an integer into the `custom` table. -/
def Settings.setValueInt (custom : LuaTable) (name : String) (value : Int) : LuaTable :=
  LuaTable.setField custom name (.num value)

/-- `int Settings::getValue(const char* name, int default_value) const`
(settings.cpp:214): reads the `custom` table through `getIntegerField`. -/
def Settings.getValueInt (custom : LuaTable) (name : String) (default_value : Int) : Int :=
  getIntegerField custom name default_value

/-- `bool Settings::getValue(const char* name, bool default_value) const`
(settings.cpp:223): returns the field when its type is `LUA_TBOOLEAN`, else
the default. -/
def Settings.getValueBool (custom : LuaTable) (name : String) (default_value : Bool) : Bool :=
  match LuaTable.getField custom name with
  | .boolean b => b
  | _ => default_value

/-- The `custom` table right after the constructor (settings.cpp:116):
`lua_newtable` gives the empty table. -/
def Settings.initialCustom : LuaTable := []

/-- The `setValue` overloads, as abstract operations on the custom table. -/
inductive SetOp where
  | setBool (name : String) (value : Bool)
  | setInt (name : String) (value : Int)
deriving Repr, BEq

def SetOp.name : SetOp → String
  | .setBool n _ => n
  | .setInt n _ => n

def applySetOps (ops : List SetOp) (custom : LuaTable) : LuaTable :=
  ops.foldl
    (fun c op =>
      match op with
      | .setBool n v => Settings.setValueBool c n v
      | .setInt n v => Settings.setValueInt c n v)
    custom

/-! ## MTJD `DependencyTable` and `notifyDependents` -/

/-- Entry identities: stable handles into the dependency graph. -/
abbrev EntryId := Nat

/-- Modelled from the spec: the `DependencyTable` implementation
(`core/MTJD/base_entry.h`) is not among the provided sources; `group.h`
only declares the member `m_static_dependency_table`.  Spec §3 / §4.2: a
mapping from an Entry to its registered dependents. -/
abbrev DependencyTable := List (EntryId × List EntryId)

/-- The dependents registered against `owner` (empty when `owner` has no
registration). -/
def DependencyTable.depsOf (t : DependencyTable) (owner : EntryId) : List EntryId :=
  match t with
  | [] => []
  | (k, ds) :: rest => if k = owner then ds else DependencyTable.depsOf rest owner

/-- Modelled from the spec §4.2: `addDependent(owner, dependent)` registers
that `dependent` must be decremented when `owner` completes. -/
def DependencyTable.addDependent (t : DependencyTable) (owner dependent : EntryId) :
    DependencyTable :=
  match t with
  | [] => [(owner, [dependent])]
  | (k, ds) :: rest =>
    if k = owner then (k, ds ++ [dependent]) :: rest
    else (k, ds) :: DependencyTable.addDependent rest owner dependent

/-- Clearing the registration for `owner` (the second half of
`notifyDependents`). -/
def DependencyTable.clearOwner (t : DependencyTable) (owner : EntryId) : DependencyTable :=
  match t with
  | [] => []
  | (k, ds) :: rest =>
    if k = owner then DependencyTable.clearOwner rest owner
    else (k, ds) :: DependencyTable.clearOwner rest owner

/-- The counters of all entries in the graph, by identity. -/
abbrev Counters := EntryId → Nat

/-- Modelled from the spec §4.1: one `decrementDependency()` call on the entry
`e` of the graph; fatal when the counter is already zero (counts are kept in
`Nat` here because the fatal branch makes zero the floor; the signed-counter
view is `BaseEntry`). -/
def decrementCounter (counts : Counters) (e : EntryId) : Except String Counters :=
  if counts e = 0 then
    .error "MTJD consistency error: dependency counter underflow"
  else
    .ok (fun x => if x = e then counts e - 1 else counts x)

/-- `decrementDependency()` on each listed dependent, in registration order. -/
def decrementAll (deps : List EntryId) (counts : Counters) : Except String Counters :=
  deps.foldlM decrementCounter counts

/-- Modelled from the spec §4.2: `notifyDependents(owner)` calls
`decrementDependency()` on every registered dependent of `owner`, then clears
the registration for `owner`. -/
def notifyDependents (owner : EntryId) (t : DependencyTable) (counts : Counters) :
    Except String (DependencyTable × Counters) := do
  let counts' ← decrementAll (DependencyTable.depsOf t owner) counts
  pure (DependencyTable.clearOwner t owner, counts')

/-! ## MTJD `Group` (`src/core/MTJD/group.h`) -/

/-- Modelled from the spec: the `Group` member functions declared in
`src/core/MTJD/group.h` have no definitions among the provided sources.
State per spec §3 / §4.4: the inherited counter, the `sync_event`
construction flag, the state of the optional blocking event,
`m_static_dependency_table` (the fixed member list), and the Group's own
entry in the propagation `DependencyTable` (its dependents). -/
structure Group where
  dependency_count : Nat
  sync_event : Bool
  event_signaled : Bool
  m_static_dependency_table : List EntryId
  dependents : List EntryId
deriving Repr, DecidableEq

/-- Modelled from the spec §4.4: `Group::Group(bool sync_event)`.  No static
members yet, so the counter is zero and the barrier is already satisfied: the
blocking event (when present) starts signaled, making the zero-member wait
return immediately. -/
def Group.init (sync_event : Bool) : Group :=
  { dependency_count := 0
    sync_event := sync_event
    event_signaled := sync_event
    m_static_dependency_table := []
    dependents := [] }

/-- Modelled from the spec §4.4: `dependencyNotReady()` re-arms the barrier —
the blocking event is reset so a waiter blocks again. -/
def Group.dependencyNotReady (g : Group) : Group :=
  { g with event_signaled := false }

/-- Modelled from the spec §4.4: `dependencyReady()` — the barrier closed:
signal the blocking event (releasing a waiter, if the event exists) and
propagate one decrement to each of the Group's own dependents, clearing that
registration.  The returned list is the batch of `decrementDependency()`
targets. -/
def Group.dependencyReady (g : Group) : Group × List EntryId :=
  ({ g with event_signaled := true, dependents := [] }, g.dependents)

/-- Modelled from the spec §4.4: the overridden `incrementDependency()`
delegates to the base counter and triggers `dependencyNotReady()` exactly when
the counter becomes nonzero again from zero. -/
def Group.incrementDependency (g : Group) : Group :=
  let g' := { g with dependency_count := g.dependency_count + 1 }
  if g.dependency_count = 0 then g'.dependencyNotReady else g'

/-- Modelled from the spec §4.1 / §4.4: the overridden `decrementDependency()`
delegates to the base counter (fatal underflow at zero) and triggers
`dependencyReady()` exactly when the counter reaches zero. -/
def Group.decrementDependency (g : Group) : Except String (Group × List EntryId) :=
  if g.dependency_count = 0 then
    .error "MTJD consistency error: dependency counter underflow"
  else
    let g' := { g with dependency_count := g.dependency_count - 1 }
    if g'.dependency_count = 0 then .ok g'.dependencyReady else .ok (g', [])

/-- Modelled from the spec §4.4: `addStaticDependency(entry)` registers a
permanent member before scheduling begins; the Group's counter counts the
static members, so each registration increments it. -/
def Group.addStaticDependency (g : Group) (entry : EntryId) : Group :=
  let g' := g.incrementDependency
  { g' with m_static_dependency_table := g'.m_static_dependency_table ++ [entry] }

/-- A Group built by construction followed by one `addStaticDependency` per
member, before scheduling begins. -/
def Group.withStaticMembers (sync_event : Bool) (members : List EntryId) : Group :=
  members.foldl Group.addStaticDependency (Group.init sync_event)

/-- The blocking wait (spec §4.4): a caller blocks exactly when a sync event
exists and is not signaled. -/
def Group.waitWouldBlock (g : Group) : Bool :=
  g.sync_event && !g.event_signaled

/-- One member's completion triggers `decrementDependency` on the Group
(spec §3); which member completed does not enter the Group's counter.
Processes a whole completion order, keeping the Group state. -/
def Group.processCompletions (order : List EntryId) (g : Group) : Except String Group :=
  order.foldlM (fun g _ => Except.map Prod.fst g.decrementDependency) g

/-! ## MTJD `Job` completion (modelled) -/

/-- Modelled from the spec §4.3: the Job lifecycle states. -/
inductive JobState where
  | Pending
  | Ready
  | Running
  | Completed
deriving Repr, DecidableEq

/-- Modelled from the spec §4.3: a Job is an Entry plus work plus lifecycle
state and a per-job error status (no Job source is among the provided
files). -/
structure Job where
  id : EntryId
  state : JobState
  error_status : Option String
deriving Repr, DecidableEq

/-- The outcome of running the work callable: normal return, or an error
raised inside it. -/
inductive WorkResult where
  | success
  | failure (msg : String)
deriving Repr, DecidableEq

/-- Modelled from the spec §4.3 / §7: the Job boundary.  An error raised by
the work callable is caught here and recorded as the per-job status; the Job
transitions to `Completed` either way.  The function is total: nothing
escapes toward the worker loop. -/
def Job.executeWork (j : Job) (r : WorkResult) : Job :=
  { j with
    state := .Completed
    error_status := match r with | .success => none | .failure m => some m }

/-- Modelled from the spec §4.3: on `Completed`, the Job calls
`notifyDependents` on itself (dependency propagation is identical for
successful and failed jobs). -/
def completeJob (j : Job) (r : WorkResult) (t : DependencyTable) (counts : Counters) :
    Except String (Job × DependencyTable × Counters) := do
  let j' := j.executeWork r
  let (t', counts') ← notifyDependents j.id t counts
  pure (j', t', counts')

/-! ## MTJD atomic zero-crossing observation (spec §5) -/

/-- Modelled from the spec §5: an atomic counter decrement that also reports
whether this call observed the zero-crossing (the caller that sees `true` is
the one responsible for pushing the newly ready Job or releasing the Group's
wait). -/
def atomicDecrementObserve (n : Nat) : Except String (Nat × Bool) :=
  if n = 0 then
    .error "MTJD consistency error: dependency counter underflow"
  else
    .ok (n - 1, decide (n - 1 = 0))

/-- Modelled from the spec §5: sibling completions on distinct worker threads
both decrementing the same downstream counter.  Atomicity means any concurrent
execution is equivalent to some interleaving, i.e. to processing the thread
ids in some order; each thread records whether its decrement observed the
zero-crossing. -/
def runSiblingCompletions (threads : List Nat) (n : Nat) :
    Except String (Nat × List (Nat × Bool)) :=
  threads.foldlM
    (fun acc t => do
      let (n', ready) ← atomicDecrementObserve acc.1
      pure (n', acc.2 ++ [(t, ready)]))
    (n, [])

/-! ## Settings::load (`src/editor/settings.cpp:127`) -/

/-- The member fields of `Settings` that `load` can mutate (settings.cpp:94
constructor / settings.cpp:127 load).  The two mouse sensitivities are floats
in the source; they are read and stored verbatim, never computed with, so the
integer number model applies.  The Lua state itself (globals, `custom`) is
separate: `load` may execute a chunk that changes it even on a `pcall`
failure, but the C++ member fields below are only assigned after the error
check. -/
structure SettingsState where
  m_window_x : Int
  m_window_y : Int
  m_window_w : Int
  m_window_h : Int
  m_is_maximized : Bool
  m_is_opened : Bool
  m_is_asset_browser_opened : Bool
  m_is_entity_list_opened : Bool
  m_is_entity_template_list_opened : Bool
  m_is_log_opened : Bool
  m_is_profiler_opened : Bool
  m_is_properties_opened : Bool
  m_is_crash_reporting_enabled : Bool
  m_autosave_time : Int
  m_mouse_sensitivity_x : Int
  m_mouse_sensitivity_y : Int
  m_data_dir : String
deriving Repr, DecidableEq

/-- One editor `Action` as `load` sees it: a name and the shortcut slots
(`Action::shortcut`, three ints in the source). -/
structure ActionState where
  name : String
  shortcut : List Int
deriving Repr, DecidableEq

/-- The Lua global environment after `luaL_loadfile` + `lua_pcall`, or the
error raised by either call. -/
inductive LoadOutcome where
  | err (msg : String)
  | ok (globals : LuaTable)
deriving Repr, BEq

/-- `getBoolean` (settings.cpp:70): the global when its type is
`LUA_TBOOLEAN`, else the default. -/
def getBoolean (env : LuaTable) (name : String) (default_value : Bool) : Bool :=
  match LuaTable.getField env name with
  | .boolean b => b
  | _ => default_value

/-- `getInteger` (settings.cpp:82): the global when its type is `LUA_TNUMBER`,
else the default. -/
def getInteger (env : LuaTable) (name : String) (default_value : Int) : Int :=
  match LuaTable.getField env name with
  | .num n => n
  | _ => default_value

/-- `getFloat` (settings.cpp:58): the global when its type is `LUA_TNUMBER`,
else the default (numbers modelled as integers, see the file header). -/
def getFloat (env : LuaTable) (name : String) (default_value : Int) : Int :=
  match LuaTable.getField env name with
  | .num n => n
  | _ => default_value

/-- The inner shortcut loop of `load` (settings.cpp:175): when the `actions`
table has a table field named after the action, every slot `j` whose 1-based
array entry `1+j` is a number is overwritten with it. -/
def loadActionShortcuts (afields : LuaTable) (a : ActionState) : ActionState :=
  match LuaTable.getField afields a.name with
  | .table _ arr =>
    { a with
      shortcut := (List.range a.shortcut.length).map fun j =>
        match arr.getD j .nil with
        | .num n => n
        | _ => a.shortcut.getD j 0 }
  | _ => a

/-- `Settings::load` (settings.cpp:127).  `has_patch_file_device` mirrors
`m_editor->getEngine().getPatchFileDevice()`; the external side effects
(`g_log_error`, `enableCrashReporting`, `setPatchPath`, `ImGui::LoadDock`) do
not touch the modelled state.  When loading or executing the file fails the
function logs and returns `false` before any field assignment; otherwise every
field is (re)read from the globals and the function returns `true`. -/
def Settings.load (s : SettingsState) (actions : List ActionState)
    (has_patch_file_device : Bool) (outcome : LoadOutcome) :
    Bool × SettingsState × List ActionState :=
  match outcome with
  | .err _ => (false, s, actions)
  | .ok env =>
    let s :=
      match LuaTable.getField env "window" with
      | .table fields _ =>
        { s with
          m_window_x := getIntegerField fields "x" 0
          m_window_y := getIntegerField fields "y" 0
          m_window_w := getIntegerField fields "w" (-1)
          m_window_h := getIntegerField fields "h" (-1) }
      | _ => s
    let s :=
      { s with
        m_is_maximized := getBoolean env "maximized" true
        m_is_opened := getBoolean env "settings_opened" false
        m_is_asset_browser_opened := getBoolean env "asset_browser_opened" false
        m_is_entity_list_opened := getBoolean env "entity_list_opened" false
        m_is_entity_template_list_opened := getBoolean env "entity_template_list_opened" false
        m_is_log_opened := getBoolean env "log_opened" false
        m_is_profiler_opened := getBoolean env "profiler_opened" false
        m_is_properties_opened := getBoolean env "properties_opened" false
        m_is_crash_reporting_enabled := getBoolean env "error_reporting_enabled" true
        m_autosave_time := getInteger env "autosave_time" 300
        m_mouse_sensitivity_x := getFloat env "mouse_sensitivity_x" 200
        m_mouse_sensitivity_y := getFloat env "mouse_sensitivity_y" 200 }
    let s :=
      if has_patch_file_device then s
      else
        match LuaTable.getField env "data_dir" with
        | .str d => { s with m_data_dir := d }
        | _ => s
    let actions :=
      match LuaTable.getField env "actions" with
      | .table afields _ => actions.map (loadActionShortcuts afields)
      | _ => actions
    (true, s, actions)

/-! ## Association-table lemmas -/

theorem LuaTable.getField_setField_self (t : LuaTable) (name : String) (v : LuaValue) :
    LuaTable.getField (LuaTable.setField t name v) name = v := by
  induction t with
  | nil => simp [LuaTable.setField, LuaTable.getField]
  | cons hd tl ih =>
    obtain ⟨k, w⟩ := hd
    by_cases hk : k = name
    · simp [LuaTable.setField, LuaTable.getField, hk]
    · simp [LuaTable.setField, LuaTable.getField, hk, ih]

theorem LuaTable.getField_setField_other (t : LuaTable) (name k : String) (v : LuaValue)
    (hne : k ≠ name) :
    LuaTable.getField (LuaTable.setField t k v) name = LuaTable.getField t name := by
  induction t with
  | nil => simp [LuaTable.setField, LuaTable.getField, hne]
  | cons hd tl ih =>
    obtain ⟨k', w⟩ := hd
    by_cases hk : k' = k
    · subst hk
      simp [LuaTable.setField, LuaTable.getField, hne]
    · by_cases hk2 : k' = name
      · subst hk2
        simp [LuaTable.setField, LuaTable.getField, hk, Ne.symm hne]
      · simp [LuaTable.setField, LuaTable.getField, hk, hk2, ih]

theorem applySetOps_getField_of_not_set (ops : List SetOp) (custom : LuaTable)
    (name : String) (hns : name ∉ ops.map SetOp.name) :
    LuaTable.getField (applySetOps ops custom) name = LuaTable.getField custom name := by
  induction ops generalizing custom with
  | nil => simp [applySetOps]
  | cons op rest ih =>
    simp only [List.map_cons, List.mem_cons] at hns
    push_neg at hns
    obtain ⟨h1, h2⟩ := hns
    cases op with
    | setBool n v =>
      have hn : n ≠ name := by
        intro h
        exact h1 (by simpa [SetOp.name] using h.symm)
      calc LuaTable.getField (applySetOps (SetOp.setBool n v :: rest) custom) name
          = LuaTable.getField (applySetOps rest (Settings.setValueBool custom n v)) name := by
            simp [applySetOps]
        _ = LuaTable.getField (Settings.setValueBool custom n v) name := ih _ h2
        _ = LuaTable.getField custom name :=
            LuaTable.getField_setField_other custom name n _ hn
    | setInt n v =>
      have hn : n ≠ name := by
        intro h
        exact h1 (by simpa [SetOp.name] using h.symm)
      calc LuaTable.getField (applySetOps (SetOp.setInt n v :: rest) custom) name
          = LuaTable.getField (applySetOps rest (Settings.setValueInt custom n v)) name := by
            simp [applySetOps]
        _ = LuaTable.getField (Settings.setValueInt custom n v) name := ih _ h2
        _ = LuaTable.getField custom name :=
            LuaTable.getField_setField_other custom name n _ hn

/-! ## `BaseEntry` counter lemmas -/

theorem BaseEntry.runOps_nonneg (ops : List EntryOp) (e e' : BaseEntry)
    (h : 0 ≤ e.dependency_count) (hrun : e.runOps ops = .ok e') :
    0 ≤ e'.dependency_count := by
  induction ops generalizing e with
  | nil =>
    simp only [BaseEntry.runOps, List.foldlM_nil] at hrun
    cases hrun
    exact h
  | cons op rest ih =>
    simp only [BaseEntry.runOps, List.foldlM_cons] at hrun
    cases hop : e.applyOp op with
    | error msg =>
      rw [hop] at hrun
      simp [Bind.bind, Except.bind] at hrun
    | ok e1 =>
      rw [hop] at hrun
      simp only [Bind.bind, Except.bind] at hrun
      have h1 : 0 ≤ e1.dependency_count := by
        cases op with
        | inc =>
          simp only [BaseEntry.applyOp, BaseEntry.incrementDependency,
            Except.ok.injEq] at hop
          rw [← hop]
          show 0 ≤ e.dependency_count + 1
          omega
        | dec =>
          simp only [BaseEntry.applyOp, BaseEntry.decrementDependency] at hop
          split at hop
          · cases hop
          · rename_i hne
            rw [Except.ok.injEq] at hop
            rw [← hop]
            simp only
            omega
      exact ih e1 h1 hrun

/-! ## Claim theorems -/

/-- C1: for every Entry, the dependency counter never becomes negative —
`decrementDependency` on a counter already at zero reports a fatal consistency
error instead of decrementing, and every state reachable by a fatal-error-free
sequence of counter operations from a nonnegative state has
`dependency_count ≥ 0`. -/
theorem C1_dependency_counter_never_negative (e : BaseEntry)
    (h : 0 ≤ e.dependency_count) (ops : List EntryOp) (e' : BaseEntry)
    (hrun : e.runOps ops = .ok e') :
    0 ≤ e'.dependency_count ∧
      (e'.dependency_count = 0 →
        e'.decrementDependency =
          .error "MTJD consistency error: dependency counter underflow") := by
  refine ⟨BaseEntry.runOps_nonneg ops e e' h hrun, ?_⟩
  intro hz
  simp [BaseEntry.decrementDependency, hz]

/-- Witness for C1: a concrete run `2 → 1 → 2 → 1 → 0` stays nonnegative and
the state reached at zero reports the fatal underflow error on a further
decrement. -/
theorem C1_dependency_counter_never_negative_witness :
    (0 : Int) ≤ (BaseEntry.mk 2).dependency_count ∧
    BaseEntry.runOps (BaseEntry.mk 2) [.dec, .inc, .dec, .dec] = .ok (BaseEntry.mk 0) ∧
    (0 : Int) ≤ (BaseEntry.mk 0).dependency_count ∧
    (BaseEntry.mk 0).decrementDependency =
      .error "MTJD consistency error: dependency counter underflow" :=
  ⟨by decide, rfl,
    (C1_dependency_counter_never_negative (BaseEntry.mk 2) (by decide)
      [.dec, .inc, .dec, .dec] (BaseEntry.mk 0) rfl).1,
    (C1_dependency_counter_never_negative (BaseEntry.mk 2) (by decide)
      [.dec, .inc, .dec, .dec] (BaseEntry.mk 0) rfl).2 rfl⟩

/-- C4: a Group constructed with `sync_event = true` and zero static members is
immediately ready at construction — the blocking wait would not block, the
counter is zero and the event is already signaled, although no
`decrementDependency` call has occurred. -/
theorem C4_zero_member_group_immediately_ready :
    (Group.init true).waitWouldBlock = false ∧
    (Group.init true).dependency_count = 0 ∧
    (Group.init true).event_signaled = true :=
  ⟨rfl, rfl, rfl⟩

/-- C5: `Group::decrementDependency` delegates to the base counter (fatal
underflow at zero) and fires `dependencyReady` exactly when the counter
reaches zero (event signaled, one decrement emitted per registered dependent,
registration cleared; otherwise nothing but the counter changes), and
`Group::incrementDependency` delegates to the base counter and fires
`dependencyNotReady` exactly when the counter leaves zero (event reset;
otherwise nothing but the counter changes). -/
theorem C5_group_overrides_trigger_exactly_on_zero_crossing (g : Group) :
    g.decrementDependency =
      (if g.dependency_count = 0 then
        .error "MTJD consistency error: dependency counter underflow"
      else if g.dependency_count = 1 then
        .ok ({ g with dependency_count := 0, event_signaled := true, dependents := [] },
          g.dependents)
      else
        .ok ({ g with dependency_count := g.dependency_count - 1 }, [])) ∧
    g.incrementDependency =
      (if g.dependency_count = 0 then
        { g with dependency_count := 1, event_signaled := false }
      else
        { g with dependency_count := g.dependency_count + 1 }) := by
  constructor
  · by_cases h0 : g.dependency_count = 0
    · simp [Group.decrementDependency, h0]
    · by_cases h1 : g.dependency_count = 1
      · simp [Group.decrementDependency, Group.dependencyReady, h0, h1]
      · have hne : g.dependency_count - 1 ≠ 0 := by omega
        simp [Group.decrementDependency, h0, h1, hne]
  · by_cases h0 : g.dependency_count = 0
    · simp [Group.incrementDependency, Group.dependencyNotReady, h0]
    · simp [Group.incrementDependency, h0]

/-- C6: an error raised by the work callable is caught at the Job boundary and
recorded as the per-job status; the Job still transitions to `Completed`, and
completion propagates to dependents exactly as for a successful job (the
table/counter effects of `completeJob` are identical); the boundary is a total
function, so nothing propagates into the worker loop. -/
theorem C6_job_failure_contained_and_still_notifies (j : Job) (msg : String)
    (t : DependencyTable) (counts : Counters) :
    (j.executeWork (.failure msg)).state = JobState.Completed ∧
    (j.executeWork (.failure msg)).error_status = some msg ∧
    (j.executeWork .success).state = JobState.Completed ∧
    (j.executeWork .success).error_status = none ∧
    Except.map (fun r => r.2) (completeJob j (.failure msg) t counts) =
      Except.map (fun r => r.2) (completeJob j .success t counts) := by
  refine ⟨rfl, rfl, rfl, rfl, ?_⟩
  simp only [completeJob]
  cases h : notifyDependents j.id t counts with
  | error msg' => simp [h, Except.map, Bind.bind, Except.bind]
  | ok p => simp [h, Except.map, Bind.bind, Except.bind, Pure.pure, Except.pure]

/-- C7: two sibling completions (any two worker threads, in either
interleaving — the order of `t` and `u` is arbitrary) each apply exactly one
decrement to a downstream counter at 2; only the second observes the
zero-crossing, the first observes a still-nonzero counter, so the downstream
entry becomes ready exactly once, after both decrements and never before. -/
theorem C7_sibling_decrements_single_zero_crossing (t u : Nat) :
    runSiblingCompletions [t, u] 2 = .ok (0, [(t, false), (u, true)]) ∧
    runSiblingCompletions [t] 2 = .ok (1, [(t, false)]) :=
  ⟨rfl, rfl⟩

/-- C9: `Settings::load` is atomic on error — when loading or executing the
settings file fails, it returns `false` and every member field and every
action shortcut retains the value it had before the call. -/
theorem C9_load_error_leaves_state_unchanged (s : SettingsState)
    (actions : List ActionState) (has_patch_file_device : Bool) (msg : String) :
    Settings.load s actions has_patch_file_device (.err msg) = (false, s, actions) :=
  rfl

/-- C10: after `Blob::create(data, size)` the read position is zero and
`getBufferSize()` returns `size`; after `Blob::clearBuffer()` both the read
position and `getBufferSize()` are zero. -/
theorem C10_blob_create_clearBuffer (b : Blob) (data : Ptr) (size : Int) :
    (b.create data size).m_pos = 0 ∧
    (b.create data size).getBufferSize = size ∧
    b.clearBuffer.m_pos = 0 ∧
    b.clearBuffer.getBufferSize = 0 :=
  ⟨rfl, rfl, rfl, rfl⟩

/-- C8: Settings custom values round-trip — `setValue(name, v)` followed by
`getValue(name, d)` returns `v` for every default `d` (both the int and the
bool overloads, over any prior custom table), and for a name never set from
the freshly constructed state, `getValue(name, d)` returns `d`. -/
theorem C8_settings_custom_roundtrip (custom : LuaTable) (name : String)
    (vi : Int) (vb : Bool) (di : Int) (db : Bool) (ops : List SetOp)
    (hns : name ∉ ops.map SetOp.name) :
    Settings.getValueInt (Settings.setValueInt custom name vi) name di = vi ∧
    Settings.getValueBool (Settings.setValueBool custom name vb) name db = vb ∧
    Settings.getValueInt (applySetOps ops Settings.initialCustom) name di = di ∧
    Settings.getValueBool (applySetOps ops Settings.initialCustom) name db = db := by
  refine ⟨?_, ?_, ?_, ?_⟩
  · simp [Settings.getValueInt, Settings.setValueInt, getIntegerField,
      LuaTable.getField_setField_self]
  · simp [Settings.getValueBool, Settings.setValueBool,
      LuaTable.getField_setField_self]
  · rw [Settings.getValueInt, getIntegerField,
      applySetOps_getField_of_not_set ops Settings.initialCustom name hns]
    simp [Settings.initialCustom, LuaTable.getField]
  · rw [Settings.getValueBool,
      applySetOps_getField_of_not_set ops Settings.initialCustom name hns]
    simp [Settings.initialCustom, LuaTable.getField]

/-- Witness for C8: a concrete round-trip (`"speed" ↦ 42` and `"speed" ↦ true`
through the two overloads) and the concrete never-set name `"speed"` against
two other stored names. -/
theorem C8_settings_custom_roundtrip_witness :
    ("speed" ∉ ([SetOp.setInt "other" 3, SetOp.setBool "flag" true].map SetOp.name)) ∧
    (Settings.getValueInt (Settings.setValueInt [] "speed" 42) "speed" 0 = 42 ∧
     Settings.getValueBool (Settings.setValueBool [] "speed" true) "speed" false = true ∧
     Settings.getValueInt
       (applySetOps [SetOp.setInt "other" 3, SetOp.setBool "flag" true]
         Settings.initialCustom) "speed" 0 = 0 ∧
     Settings.getValueBool
       (applySetOps [SetOp.setInt "other" 3, SetOp.setBool "flag" true]
         Settings.initialCustom) "speed" false = false) :=
  ⟨by decide,
    C8_settings_custom_roundtrip [] "speed" 42 true 0 false
      [SetOp.setInt "other" 3, SetOp.setBool "flag" true] (by decide)⟩

/-! ## `DependencyTable` lemmas -/

theorem DependencyTable.depsOf_clearOwner_self (t : DependencyTable) (owner : EntryId) :
    DependencyTable.depsOf (DependencyTable.clearOwner t owner) owner = [] := by
  induction t with
  | nil => rfl
  | cons hd rest ih =>
    obtain ⟨k, ds⟩ := hd
    by_cases hk : k = owner
    · simp [DependencyTable.clearOwner, hk, ih]
    · simp [DependencyTable.clearOwner, DependencyTable.depsOf, hk, ih]

theorem DependencyTable.depsOf_clearOwner_other (t : DependencyTable)
    (owner o : EntryId) (hne : o ≠ owner) :
    DependencyTable.depsOf (DependencyTable.clearOwner t owner) o =
      DependencyTable.depsOf t o := by
  induction t with
  | nil => rfl
  | cons hd rest ih =>
    obtain ⟨k, ds⟩ := hd
    by_cases hk : k = owner
    · subst hk
      simp [DependencyTable.clearOwner, DependencyTable.depsOf, Ne.symm hne, ih]
    · by_cases hko : k = o
      · simp [DependencyTable.clearOwner, DependencyTable.depsOf, hk, hko, hne]
      · simp [DependencyTable.clearOwner, DependencyTable.depsOf, hk, hko, ih]

theorem DependencyTable.clearOwner_idem (t : DependencyTable) (owner : EntryId) :
    DependencyTable.clearOwner (DependencyTable.clearOwner t owner) owner =
      DependencyTable.clearOwner t owner := by
  induction t with
  | nil => rfl
  | cons hd rest ih =>
    obtain ⟨k, ds⟩ := hd
    by_cases hk : k = owner
    · simp [DependencyTable.clearOwner, hk, ih]
    · simp [DependencyTable.clearOwner, hk, ih]

theorem decrementAll_ok (deps : List EntryId) (counts : Counters)
    (h : ∀ e ∈ deps, deps.count e ≤ counts e) :
    ∃ counts', decrementAll deps counts = .ok counts' ∧
      ∀ e, counts' e = counts e - deps.count e := by
  induction deps generalizing counts with
  | nil =>
    refine ⟨counts, rfl, fun e => by simp⟩
  | cons d rest ih =>
    have hd1 : rest.count d + 1 ≤ counts d := by
      have := h d (List.mem_cons_self d rest)
      simpa [List.count_cons_self] using this
    have hdne : counts d ≠ 0 := by omega
    have hstep : decrementCounter counts d =
        .ok (fun x => if x = d then counts d - 1 else counts x) := by
      simp [decrementCounter, hdne]
    have hrest : ∀ e ∈ rest,
        rest.count e ≤ (fun x => if x = d then counts d - 1 else counts x) e := by
      intro e he
      by_cases hed : e = d
      · subst hed
        show rest.count e ≤ if e = e then counts e - 1 else counts e
        rw [if_pos rfl]
        omega
      · show rest.count e ≤ if e = d then counts d - 1 else counts e
        rw [if_neg hed]
        have := h e (List.mem_cons_of_mem d he)
        rw [List.count_cons] at this
        have hde : d ≠ e := fun hh => hed hh.symm
        simp [hde] at this
        omega
    obtain ⟨counts', hca, hcv⟩ := ih _ hrest
    refine ⟨counts', ?_, ?_⟩
    · simp only [decrementAll, List.foldlM_cons, hstep, Bind.bind, Except.bind]
      exact hca
    · intro e
      rw [hcv e]
      by_cases hed : e = d
      · subst hed
        rw [if_pos rfl, List.count_cons_self]
        omega
      · rw [if_neg hed, List.count_cons]
        have hde : d ≠ e := fun hh => hed hh.symm
        simp [hde]

/-- C2: `notifyDependents(owner)` calls `decrementDependency` exactly once per
dependent registered against `owner` (each counter drops by exactly its
multiplicity among the registered edges), then clears `owner`'s registration
and nothing else, and a repeated `notifyDependents(owner)` decrements nothing
— so each registered edge produces exactly one decrement, with no
double-notify and no missed notify. -/
theorem C2_notifyDependents_exactly_once (owner : EntryId) (t : DependencyTable)
    (counts : Counters)
    (h : ∀ e ∈ DependencyTable.depsOf t owner,
      (DependencyTable.depsOf t owner).count e ≤ counts e) :
    ∃ counts',
      notifyDependents owner t counts =
        .ok (DependencyTable.clearOwner t owner, counts') ∧
      (∀ e, counts' e = counts e - (DependencyTable.depsOf t owner).count e) ∧
      DependencyTable.depsOf (DependencyTable.clearOwner t owner) owner = [] ∧
      (∀ o, o ≠ owner →
        DependencyTable.depsOf (DependencyTable.clearOwner t owner) o =
          DependencyTable.depsOf t o) ∧
      notifyDependents owner (DependencyTable.clearOwner t owner) counts' =
        .ok (DependencyTable.clearOwner t owner, counts') := by
  obtain ⟨counts', hca, hcv⟩ := decrementAll_ok _ _ h
  refine ⟨counts', ?_, hcv, DependencyTable.depsOf_clearOwner_self t owner,
    fun o ho => DependencyTable.depsOf_clearOwner_other t owner o ho, ?_⟩
  · simp [notifyDependents, hca, Bind.bind, Except.bind, Pure.pure, Except.pure]
  · simp [notifyDependents, DependencyTable.depsOf_clearOwner_self, decrementAll,
      DependencyTable.clearOwner_idem, Bind.bind, Except.bind, Pure.pure, Except.pure]

/-- Witness for C2: owner 0 with registered dependents 1 and 2 (and an
unrelated owner 5), all counters at 1. -/
theorem C2_notifyDependents_exactly_once_witness :
    (∀ e ∈ DependencyTable.depsOf [(0, [1, 2]), (5, [1])] 0,
      (DependencyTable.depsOf [(0, [1, 2]), (5, [1])] 0).count e ≤
        (fun _ => 1 : Counters) e) ∧
    (∃ counts',
      notifyDependents 0 [(0, [1, 2]), (5, [1])] (fun _ => 1) =
        .ok (DependencyTable.clearOwner [(0, [1, 2]), (5, [1])] 0, counts') ∧
      (∀ e, counts' e =
        (fun _ => 1 : Counters) e -
          (DependencyTable.depsOf [(0, [1, 2]), (5, [1])] 0).count e) ∧
      DependencyTable.depsOf
        (DependencyTable.clearOwner [(0, [1, 2]), (5, [1])] 0) 0 = [] ∧
      (∀ o, o ≠ 0 →
        DependencyTable.depsOf
          (DependencyTable.clearOwner [(0, [1, 2]), (5, [1])] 0) o =
          DependencyTable.depsOf [(0, [1, 2]), (5, [1])] o) ∧
      notifyDependents 0 (DependencyTable.clearOwner [(0, [1, 2]), (5, [1])] 0)
          counts' =
        .ok (DependencyTable.clearOwner [(0, [1, 2]), (5, [1])] 0, counts')) :=
  ⟨by decide,
    C2_notifyDependents_exactly_once 0 [(0, [1, 2]), (5, [1])] (fun _ => 1)
      (by decide)⟩

/-! ## `Group` barrier lemmas -/

theorem Group.addStatic_fields (g : Group) (e : EntryId) :
    (g.addStaticDependency e).dependency_count = g.dependency_count + 1 ∧
    (g.addStaticDependency e).sync_event = g.sync_event ∧
    (g.addStaticDependency e).dependents = g.dependents ∧
    (g.addStaticDependency e).event_signaled =
      (if g.dependency_count = 0 then false else g.event_signaled) := by
  by_cases h : g.dependency_count = 0 <;>
    simp [Group.addStaticDependency, Group.incrementDependency,
      Group.dependencyNotReady, h]

theorem Group.foldl_addStatic_count (l : List EntryId) :
    ∀ g : Group, (l.foldl Group.addStaticDependency g).dependency_count =
      g.dependency_count + l.length := by
  induction l with
  | nil => intro g; simp
  | cons a rest ih =>
    intro g
    rw [List.foldl_cons, ih, (Group.addStatic_fields g a).1, List.length_cons]
    omega

theorem Group.foldl_addStatic_sync (l : List EntryId) :
    ∀ g : Group, (l.foldl Group.addStaticDependency g).sync_event = g.sync_event := by
  induction l with
  | nil => intro g; rfl
  | cons a rest ih =>
    intro g
    rw [List.foldl_cons, ih, (Group.addStatic_fields g a).2.1]

theorem Group.foldl_addStatic_dependents (l : List EntryId) :
    ∀ g : Group, (l.foldl Group.addStaticDependency g).dependents = g.dependents := by
  induction l with
  | nil => intro g; rfl
  | cons a rest ih =>
    intro g
    rw [List.foldl_cons, ih, (Group.addStatic_fields g a).2.2.1]

theorem Group.foldl_addStatic_signaled (l : List EntryId) :
    ∀ g : Group, g.dependency_count ≠ 0 →
      (l.foldl Group.addStaticDependency g).event_signaled = g.event_signaled := by
  induction l with
  | nil => intro g _; rfl
  | cons a rest ih =>
    intro g h
    have hc : (g.addStaticDependency a).dependency_count ≠ 0 := by
      rw [(Group.addStatic_fields g a).1]
      omega
    rw [List.foldl_cons, ih _ hc, (Group.addStatic_fields g a).2.2.2, if_neg h]

theorem Group.withStaticMembers_spec (s : Bool) (members : List EntryId)
    (h : members ≠ []) :
    (Group.withStaticMembers s members).dependency_count = members.length ∧
    (Group.withStaticMembers s members).sync_event = s ∧
    (Group.withStaticMembers s members).event_signaled = false ∧
    (Group.withStaticMembers s members).dependents = [] := by
  cases members with
  | nil => exact absurd rfl h
  | cons m rest =>
    have hfields := Group.addStatic_fields (Group.init s) m
    have hc1 : ((Group.init s).addStaticDependency m).dependency_count = 1 := by
      rw [hfields.1]
      rfl
    unfold Group.withStaticMembers
    rw [List.foldl_cons]
    refine ⟨?_, ?_, ?_, ?_⟩
    · rw [Group.foldl_addStatic_count, hc1, List.length_cons]
      omega
    · rw [Group.foldl_addStatic_sync, hfields.2.1]
      rfl
    · rw [Group.foldl_addStatic_signaled rest _ (by rw [hc1]; omega), hfields.2.2.2]
      rfl
    · rw [Group.foldl_addStatic_dependents, hfields.2.2.1]
      rfl

theorem Group.processCompletions_cons (a : EntryId) (rest : List EntryId) (g : Group) :
    Group.processCompletions (a :: rest) g =
      (Except.map Prod.fst g.decrementDependency) >>= fun g' =>
        Group.processCompletions rest g' := by
  simp [Group.processCompletions, List.foldlM_cons]

theorem Group.processCompletions_lt (l : List EntryId) :
    ∀ g : Group, l.length < g.dependency_count →
      Group.processCompletions l g =
        .ok { g with dependency_count := g.dependency_count - l.length } := by
  induction l with
  | nil =>
    intro g h
    show Except.ok g = _
    simp
  | cons a rest ih =>
    intro g h
    rw [List.length_cons] at h
    have h0 : g.dependency_count ≠ 0 := by omega
    have h1 : g.dependency_count - 1 ≠ 0 := by omega
    have hdec : g.decrementDependency =
        .ok ({ g with dependency_count := g.dependency_count - 1 }, []) := by
      simp [Group.decrementDependency, h0, h1]
    rw [Group.processCompletions_cons, hdec]
    show Group.processCompletions rest
        { g with dependency_count := g.dependency_count - 1 } = _
    rw [ih _ (by simp; omega)]
    have harith : g.dependency_count - 1 - rest.length =
        g.dependency_count - (a :: rest).length := by
      rw [List.length_cons]
      omega
    rw [harith]

theorem Group.processCompletions_exact (l : List EntryId) :
    ∀ g : Group, g.dependency_count = l.length → l ≠ [] →
      Group.processCompletions l g =
        .ok { g with
          dependency_count := 0
          event_signaled := true
          dependents := [] } := by
  induction l with
  | nil =>
    intro g _ h2
    exact absurd rfl h2
  | cons a rest ih =>
    intro g h1 h2
    rw [List.length_cons] at h1
    have h0 : g.dependency_count ≠ 0 := by omega
    cases rest with
    | nil =>
      have hc : g.dependency_count = 1 := by simpa using h1
      have hdec : g.decrementDependency =
          .ok ({ g with
            dependency_count := 0
            event_signaled := true
            dependents := [] }, g.dependents) := by
        simp [Group.decrementDependency, Group.dependencyReady, hc]
      rw [Group.processCompletions_cons, hdec]
      rfl
    | cons b rest2 =>
      have h1' : g.dependency_count - 1 ≠ 0 := by simp at h1 ⊢; omega
      have hdec : g.decrementDependency =
          .ok ({ g with dependency_count := g.dependency_count - 1 }, []) := by
        simp [Group.decrementDependency, h0, h1']
      rw [Group.processCompletions_cons, hdec]
      show Group.processCompletions (b :: rest2)
          { g with dependency_count := g.dependency_count - 1 } = _
      rw [ih _ (by simp at h1 ⊢; omega) (by simp)]

/-- C3: a Group with `sync_event = true` over `N ≥ 1` static members starts
with its counter at `N` and its wait armed; along any completion order (any
permutation of the members), after every proper prefix the counter is the
number of members still outstanding, is nonzero, and the wait still blocks;
after the whole order the counter is zero, the event is signaled and the wait
is released. -/
theorem C3_group_wait_releases_after_all_members (members order : List EntryId)
    (h1 : 1 ≤ members.length) (hperm : order.Perm members) :
    (Group.withStaticMembers true members).dependency_count = members.length ∧
    (Group.withStaticMembers true members).waitWouldBlock = true ∧
    (∀ p q, order = p ++ q → q ≠ [] →
      ∃ gp, Group.processCompletions p (Group.withStaticMembers true members) =
          .ok gp ∧
        gp.dependency_count = members.length - p.length ∧
        gp.dependency_count ≠ 0 ∧
        gp.waitWouldBlock = true) ∧
    (∃ gf, Group.processCompletions order (Group.withStaticMembers true members) =
        .ok gf ∧
      gf.dependency_count = 0 ∧
      gf.event_signaled = true ∧
      gf.waitWouldBlock = false) := by
  have hne : members ≠ [] := by
    intro hh
    rw [hh] at h1
    simp at h1
  obtain ⟨hcnt, hsync, hsig, hdeps⟩ := Group.withStaticMembers_spec true members hne
  have hollen : order.length = members.length := hperm.length_eq
  refine ⟨hcnt, ?_, ?_, ?_⟩
  · simp [Group.waitWouldBlock, hsync, hsig]
  · intro p q hpq hq
    have hlen : p.length < members.length := by
      rw [hpq] at hollen
      rw [List.length_append] at hollen
      cases q with
      | nil => exact absurd rfl hq
      | cons c cs =>
        rw [List.length_cons] at hollen
        omega
    have hrun := Group.processCompletions_lt p (Group.withStaticMembers true members)
      (by rw [hcnt]; exact hlen)
    refine ⟨_, hrun, ?_, ?_, ?_⟩
    · simp [hcnt]
    · simp [hcnt]
      omega
    · simp [Group.waitWouldBlock, hsync, hsig]
  · have hrun := Group.processCompletions_exact order (Group.withStaticMembers true members)
      (by rw [hcnt, hollen]) (by intro hh; rw [hh] at hollen; simp at hollen; omega)
    refine ⟨_, hrun, rfl, rfl, ?_⟩
    simp [Group.waitWouldBlock, hsync]

/-- Witness for C3: members `[10, 20]`, completed in the reversed order
`[20, 10]`. -/
theorem C3_group_wait_releases_after_all_members_witness :
    1 ≤ ([10, 20] : List EntryId).length ∧
    ([20, 10] : List EntryId).Perm [10, 20] ∧
    ((Group.withStaticMembers true [10, 20]).dependency_count =
        ([10, 20] : List EntryId).length ∧
      (Group.withStaticMembers true [10, 20]).waitWouldBlock = true ∧
      (∀ p q, ([20, 10] : List EntryId) = p ++ q → q ≠ [] →
        ∃ gp, Group.processCompletions p (Group.withStaticMembers true [10, 20]) =
            .ok gp ∧
          gp.dependency_count = ([10, 20] : List EntryId).length - p.length ∧
          gp.dependency_count ≠ 0 ∧
          gp.waitWouldBlock = true) ∧
      (∃ gf, Group.processCompletions [20, 10] (Group.withStaticMembers true [10, 20]) =
          .ok gf ∧
        gf.dependency_count = 0 ∧
        gf.event_signaled = true ∧
        gf.waitWouldBlock = false)) :=
  ⟨by decide, by decide,
    C3_group_wait_releases_after_all_members [10, 20] [20, 10] (by decide) (by decide)⟩

end LumixEngine
